import Mathlib

/-!
Shallow embedding of `internal/codeintel/uploads/internal/store/store_repositories.go`
from the sourcegraph repository.

The store is backed by a SQL database.  We model the relevant tables
(`repo`, `lsif_configuration_policies`,
`lsif_configuration_policies_repository_pattern_lookup`, the generic scan
ledger table passed to `GetRepositoriesForIndexScan`, `lsif_last_retention_scan`,
`lsif_dirty_repositories`, `lsif_uploads`) as lists of rows, timestamps as
integers counting nanoseconds (the unit of Go's `time.Time`/`time.Duration`),
and each SQL statement as a pure function from a database state to a result
together with the successor state.  A NULL-able column is an `Option`.
-/

set_option autoImplicit false

namespace UploadsStore

/-- Repository identifiers (Go `int`). -/
abbrev RepoId := Int

/-- Instants, in nanoseconds (resolution of Go's `time.Time` in this model). -/
abbrev Time := Int

/-- Go `time.Duration`: a count of nanoseconds. -/
abbrev Duration := Int

/-- Go `time.Second`: the number of nanoseconds in one second. -/
def nsPerSecond : Int := 1000000000

/-- Go `int(processDelay / time.Second)`: integer division of a `time.Duration`
by `time.Second`, truncating toward zero (Go semantics, matching `Int.div`). -/
def durationToSeconds (d : Duration) : Int := Int.tdiv d nsPerSecond

/-- A row of the `repo` table: id, name, soft-delete timestamp (`deleted_at`,
NULL-able), whether the `blocked` column is non-NULL, and the `stars` count
(NULL-able). -/
structure Repo where
  id : RepoId
  name : String
  deleted_at : Option Time
  blocked : Bool
  stars : Option Int
deriving Repr, DecidableEq

/-- A row of `lsif_configuration_policies`: only the columns the queries read. -/
structure ConfigurationPolicy where
  id : Int
  indexing_enabled : Bool
  repository_id : Option RepoId
  repository_patterns : Option (List String)
deriving Repr, DecidableEq

/-- A row of `lsif_configuration_policies_repository_pattern_lookup`. -/
structure PatternLookupRow where
  policy_id : Int
  repo_id : RepoId
deriving Repr, DecidableEq

/-- A row of `lsif_dirty_repositories`.  `set_dirty_at` is NULL-able: the
insert arm of `setRepositoryAsDirtyQuery` does not populate it. -/
structure DirtyRecord where
  repository_id : RepoId
  dirty_token : Int
  update_token : Int
  set_dirty_at : Option Time
deriving Repr, DecidableEq

/-- A row of `lsif_uploads`: only the columns the retention query reads. -/
structure Upload where
  repository_id : RepoId
  state : String
deriving Repr, DecidableEq

/-- The database state visible to `store_repositories.go`.  `scanLedger` is the
generic per-scan-kind table (the `table`/`column` pair passed to
`GetRepositoriesForIndexScan`); `retentionLedger` is `lsif_last_retention_scan`.
Both map a repository id to its `last_scan_at` timestamp; a missing key means
the repository was never scanned. -/
structure DB where
  repos : List Repo
  policies : List ConfigurationPolicy
  patternLookup : List PatternLookupRow
  scanLedger : List (RepoId × Time)
  retentionLedger : List (RepoId × Time)
  dirty : List DirtyRecord
  uploads : List Upload
deriving Repr, DecidableEq

/-- Look a repository up in a scan-ledger table (LEFT JOIN semantics: a missing
row yields NULL). -/
def lookupTime (l : List (RepoId × Time)) (id : RepoId) : Option Time :=
  (l.find? (fun e => e.1 == id)).map (fun e => e.2)

/-- `INSERT ... ON CONFLICT (repository_id) DO UPDATE SET {column} = now` for a
single repository id, against a table keyed by `repository_id`: update the
row with that key if present, insert the row otherwise. -/
def upsertScan (l : List (RepoId × Time)) (id : RepoId) (now : Time) :
    List (RepoId × Time) :=
  match l with
  | [] => [(id, now)]
  | e :: es => if e.1 == id then (e.1, now) :: es else e :: upsertScan es id now

/-- The insert arm of both scan queries: claim every selected id at `now`. -/
def claimAll (l : List (RepoId × Time)) (ids : List RepoId) (now : Time) :
    List (RepoId × Time) :=
  ids.foldl (fun acc id => upsertScan acc id now) l

/-- Insertion step for `sortBy`. -/
def insertSorted {α : Type} (le : α → α → Bool) (x : α) : List α → List α
  | [] => [x]
  | y :: ys => if le x y then x :: y :: ys else y :: insertSorted le x ys

/-- Insertion sort, modelling SQL `ORDER BY`. -/
def sortBy {α : Type} (le : α → α → Bool) : List α → List α
  | [] => []
  | x :: xs => insertSorted le x (sortBy le xs)

/-- `ORDER BY stars DESC NULLS LAST, id` over `repo` rows. -/
def starsOrder (a b : Repo) : Bool :=
  match a.stars, b.stars with
  | none, none => a.id ≤ b.id
  | none, some _ => false
  | some _, none => true
  | some x, some y => x > y || (x == y && a.id ≤ b.id)

/-- `ORDER BY lrs.{column_name} NULLS FIRST, cr.id` over (id, last-scan) pairs. -/
def scanOrder (a b : RepoId × Option Time) : Bool :=
  match a.2, b.2 with
  | none, none => a.1 ≤ b.1
  | none, some _ => true
  | some _, none => false
  | some x, some y => x < y || (x == y && a.1 ≤ b.1)

/-- First arm of the `repositories_matching_policy` CTE: every repository id,
ordered by stars and truncated to the optional repository match limit, provided
global policies are allowed and some enabled policy has neither a repository id
nor repository patterns; otherwise no rows. -/
def globalPolicyRepositories (db : DB) (allowGlobalPolicies : Bool)
    (repositoryMatchLimit : Option Int) : List RepoId :=
  if allowGlobalPolicies &&
      db.policies.any (fun p =>
        p.indexing_enabled && p.repository_id.isNone && p.repository_patterns.isNone) then
    let sorted := (sortBy starsOrder db.repos).map (fun r => r.id)
    match repositoryMatchLimit with
    | some n => sorted.take n.toNat
    | none => sorted
  else
    []

/-- Second arm: repository ids named directly by an enabled policy. -/
def fixedIdPolicyRepositories (db : DB) : List RepoId :=
  db.policies.filterMap (fun p =>
    if p.indexing_enabled then p.repository_id else none)

/-- Third arm: repository ids in the pattern lookup table of an enabled policy. -/
def patternPolicyRepositories (db : DB) : List RepoId :=
  db.patternLookup.filterMap (fun rpl =>
    if db.policies.any (fun p => p.id == rpl.policy_id && p.indexing_enabled) then
      some rpl.repo_id
    else none)

/-- The `repositories_matching_policy` CTE (a `UNION ALL` of the three arms). -/
def repositoriesMatchingPolicy (db : DB) (allowGlobalPolicies : Bool)
    (repositoryMatchLimit : Option Int) : List RepoId :=
  globalPolicyRepositories db allowGlobalPolicies repositoryMatchLimit ++
    fixedIdPolicyRepositories db ++ patternPolicyRepositories db

/-- The `candidate_repositories` CTE: repositories matching some policy that are
neither soft-deleted nor blocked. -/
def candidateRepositories (db : DB) (allowGlobalPolicies : Bool)
    (repositoryMatchLimit : Option Int) : List RepoId :=
  (db.repos.filter (fun r =>
    r.deleted_at.isNone && !r.blocked &&
      (repositoriesMatchingPolicy db allowGlobalPolicies repositoryMatchLimit).contains r.id)).map
    (fun r => r.id)

/-- The staleness gate of both scan queries:
`(now - lrs.{column_name} > (delaySeconds * '1 second'::interval)) IS DISTINCT FROM FALSE`.
A NULL `last_scan_at` (never scanned) makes the comparison NULL, which is
distinct from FALSE, so such rows pass. -/
def scanDue (now : Time) (delaySeconds : Int) (lastScanAt : Option Time) : Bool :=
  match lastScanAt with
  | none => true
  | some t => decide (now - t > delaySeconds * nsPerSecond)

/-- The `repositories` CTE of `getRepositoriesForIndexScanQuery`: candidates
joined with the scan ledger, filtered by the staleness gate, ordered by
last-scan NULLS FIRST then id, truncated to `limit`. -/
def indexScanSelection (db : DB) (allowGlobalPolicies : Bool)
    (repositoryMatchLimit : Option Int) (now : Time) (delaySeconds : Int)
    (limit : Int) : List RepoId :=
  let withTimes := (candidateRepositories db allowGlobalPolicies repositoryMatchLimit).map
    (fun id => (id, lookupTime db.scanLedger id))
  let filtered := withTimes.filter (fun e => scanDue now delaySeconds e.2)
  ((sortBy scanOrder filtered).take limit.toNat).map (fun e => e.1)

/-- `getRepositoriesForIndexScanQuery` as one atomic statement: selects the ids
and upserts `last_scan_at = now` for each of them, returning the ids. -/
def getRepositoriesForIndexScanQuery (db : DB) (allowGlobalPolicies : Bool)
    (repositoryMatchLimit : Option Int) (now : Time) (delaySeconds : Int)
    (limit : Int) : List RepoId × DB :=
  let ids := indexScanSelection db allowGlobalPolicies repositoryMatchLimit now
    delaySeconds limit
  (ids, { db with scanLedger := claimAll db.scanLedger ids now })

/-- `store.GetRepositoriesForIndexScan`: passes
`int(processDelay / time.Second)` as the delay parameter of the query. -/
def getRepositoriesForIndexScan (db : DB) (processDelay : Duration)
    (allowGlobalPolicies : Bool) (repositoryMatchLimit : Option Int)
    (limit : Int) (now : Time) : List RepoId × DB :=
  getRepositoriesForIndexScanQuery db allowGlobalPolicies repositoryMatchLimit
    now (durationToSeconds processDelay) limit

/-- `GetRepositoriesForIndexScan` over a store whose single round trip may
fail: the query is one atomic statement, so a failure surfaces no ids and
leaves the database unchanged. -/
def runGetRepositoriesForIndexScan (dbFails : Bool) (db : DB)
    (processDelay : Duration) (allowGlobalPolicies : Bool)
    (repositoryMatchLimit : Option Int) (limit : Int) (now : Time) :
    Option (List RepoId) × DB :=
  if dbFails then (none, db)
  else
    let r := getRepositoriesForIndexScan db processDelay allowGlobalPolicies
      repositoryMatchLimit limit now
    (some r.1, r.2)

/-- Look a repository's `lsif_dirty_repositories` row up. -/
def lookupDirty (db : DB) (id : RepoId) : Option DirtyRecord :=
  db.dirty.find? (fun d => d.repository_id == id)

/-- The `candidate_repositories` CTE of `repositoryIDsForRetentionScanQuery`:
`SELECT DISTINCT u.repository_id FROM lsif_uploads u WHERE u.state = 'completed'`. -/
def retentionCandidates (db : DB) : List RepoId :=
  ((db.uploads.filter (fun u => u.state == "completed")).map
    (fun u => u.repository_id)).dedup

/-- The `repositories` CTE of `repositoryIDsForRetentionScanQuery`: candidates
LEFT JOINed with `lsif_last_retention_scan` and INNER JOINed with
`lsif_dirty_repositories`, kept when the staleness gate passes and
`dr.update_token = dr.dirty_token`, ordered by last-scan NULLS FIRST then id,
truncated to `limit`. -/
def retentionScanSelection (db : DB) (now : Time) (delaySeconds : Int)
    (limit : Int) : List RepoId :=
  let rows := (retentionCandidates db).filterMap (fun id =>
    match lookupDirty db id with
    | none => none
    | some dr =>
      if dr.update_token == dr.dirty_token then
        some (id, lookupTime db.retentionLedger id)
      else none)
  let filtered := rows.filter (fun e => scanDue now delaySeconds e.2)
  ((sortBy scanOrder filtered).take limit.toNat).map (fun e => e.1)

/-- `repositoryIDsForRetentionScanQuery` as one atomic statement: selects the
ids and upserts `last_retention_scan_at = now` for each, returning the ids. -/
def repositoryIDsForRetentionScanQuery (db : DB) (now : Time)
    (delaySeconds : Int) (limit : Int) : List RepoId × DB :=
  let ids := retentionScanSelection db now delaySeconds limit
  (ids, { db with retentionLedger := claimAll db.retentionLedger ids now })

/-- `store.SetRepositoriesForRetentionScanWithTime`: passes
`int(processDelay / time.Second)` as the delay parameter of the query. -/
def setRepositoriesForRetentionScanWithTime (db : DB) (processDelay : Duration)
    (limit : Int) (now : Time) : List RepoId × DB :=
  repositoryIDsForRetentionScanQuery db now (durationToSeconds processDelay) limit

/-- `store.SetRepositoriesForRetentionScan`: identical, with `now` read from
the store's clock at call time. -/
def setRepositoriesForRetentionScan (db : DB) (processDelay : Duration)
    (limit : Int) (clockNow : Time) : List RepoId × DB :=
  setRepositoriesForRetentionScanWithTime db processDelay limit clockNow

/-- `SetRepositoriesForRetentionScanWithTime` over a store whose single round
trip may fail: a failure surfaces no ids and leaves the database unchanged. -/
def runSetRepositoriesForRetentionScanWithTime (dbFails : Bool) (db : DB)
    (processDelay : Duration) (limit : Int) (now : Time) :
    Option (List RepoId) × DB :=
  if dbFails then (none, db)
  else
    let r := setRepositoriesForRetentionScanWithTime db processDelay limit now
    (some r.1, r.2)

/-- The row produced for one repository by `setRepositoryAsDirtyQuery`:
the insert arm creates `(dirty_token, update_token) = (1, 0)` without touching
`set_dirty_at`; the conflict arm increments `dirty_token` and refreshes
`set_dirty_at` exactly when the record was clean
(`update_token = dirty_token` before the increment). -/
def markDirtyRecord (old : Option DirtyRecord) (id : RepoId) (now : Time) :
    DirtyRecord :=
  match old with
  | none => ⟨id, 1, 0, none⟩
  | some d =>
    { d with
      dirty_token := d.dirty_token + 1,
      set_dirty_at :=
        if d.update_token == d.dirty_token then some now else d.set_dirty_at }

/-- The row rewrite of `setRepositoryAsDirtyQuery` against a table keyed by
`repository_id`: update the row with that key if present (conflict arm),
insert `(id, 1, 0)` otherwise. -/
def markDirtyRows (rows : List DirtyRecord) (id : RepoId) (now : Time) :
    List DirtyRecord :=
  match rows with
  | [] => [⟨id, 1, 0, none⟩]
  | d :: ds =>
    if d.repository_id == id then
      { d with
        dirty_token := d.dirty_token + 1,
        set_dirty_at :=
          if d.update_token == d.dirty_token then some now
          else d.set_dirty_at } :: ds
    else d :: markDirtyRows ds id now

/-- `store.SetRepositoryAsDirty` (`setRepositoryAsDirtyQuery`):
`INSERT INTO lsif_dirty_repositories (repository_id, dirty_token, update_token)
VALUES (id, 1, 0) ON CONFLICT (repository_id) DO UPDATE SET dirty_token = .. + 1,
set_dirty_at = CASE WHEN update_token = dirty_token THEN NOW() ELSE set_dirty_at END`. -/
def setRepositoryAsDirty (db : DB) (repositoryID : RepoId) (now : Time) : DB :=
  { db with dirty := markDirtyRows db.dirty repositoryID now }

/-- The WHERE clause shared by `dirtyRepositoriesQuery` and `maxStaleAgeQuery`:
the dirty record is stale (`dirty_token > update_token`) and its repository
exists, is not soft-deleted and is not blocked (INNER JOIN with `repo`). -/
def dirtyVisible (db : DB) (d : DirtyRecord) : Bool :=
  d.dirty_token > d.update_token &&
    db.repos.any (fun r =>
      r.id == d.repository_id && r.deleted_at.isNone && !r.blocked)

/-- `store.GetDirtyRepositories` (`dirtyRepositoriesQuery`): the
`(repository_id, dirty_token)` pairs of the visible stale records. -/
def getDirtyRepositories (db : DB) : List (RepoId × Int) :=
  db.dirty.filterMap (fun d =>
    if dirtyVisible db d then some (d.repository_id, d.dirty_token) else none)

/-- `EXTRACT(EPOCH FROM now - t)::integer`: the elapsed nanoseconds converted
to seconds and rounded to an integer (exact whenever the difference is a whole
number of seconds). -/
def epochSecondsInt (d : Int) : Int := Int.ediv (d + 500000000) nsPerSecond

/-- The rows of `maxStaleAgeQuery` before ordering: one age per visible stale
record, NULL when its `set_dirty_at` is NULL. -/
def maxStaleAges (db : DB) (now : Time) : List (Option Int) :=
  db.dirty.filterMap (fun d =>
    if dirtyVisible db d then
      some (d.set_dirty_at.map (fun t => epochSecondsInt (now - t)))
    else none)

/-- Maximum of a list of ages (SQL `ORDER BY age DESC LIMIT 1` on non-NULL
rows). -/
def maxAge (a : Int) (rest : List Int) : Int := rest.foldl max a

/-- `store.GetRepositoriesMaxStaleAge` (`maxStaleAgeQuery` + Go wrapper):
`ORDER BY age DESC` puts a NULL age first, and scanning NULL into an int fails,
so any visible stale record with a NULL `set_dirty_at` is an error; with no
rows the Go wrapper returns a zero duration; otherwise the maximal age in
seconds is scaled back to a `time.Duration` by `* time.Second`. -/
def getRepositoriesMaxStaleAge (db : DB) (now : Time) :
    Except Unit Duration :=
  let ages := maxStaleAges db now
  if ages.any (fun a => a.isNone) then Except.error ()
  else
    match ages.filterMap id with
    | [] => Except.ok 0
    | a :: rest => Except.ok (maxAge a rest * nsPerSecond)

/-- Errors surfaced by `RepoName`. -/
inductive StoreErr where
  | unknownRepository
deriving Repr, DecidableEq

/-- `store.RepoName` (`repoNameQuery` + Go wrapper):
`SELECT name FROM repo WHERE id = %s`; zero rows become `ErrUnknownRepository`,
otherwise the first row's name is returned. -/
def repoName (db : DB) (repositoryID : RepoId) : Except StoreErr String :=
  match db.repos.find? (fun r => r.id == repositoryID) with
  | none => Except.error StoreErr.unknownRepository
  | some r => Except.ok r.name

/-! ### Concrete sample databases, used to instantiate the theorems -/

/-- A live repository row. -/
def sampleRepo : Repo := ⟨1, "r", none, false, some 0⟩

/-- An enabled policy naming repository 1 directly. -/
def samplePolicy : ConfigurationPolicy := ⟨1, true, some 1, none⟩

/-- One policy-matched repository whose last index scan was 1.2 seconds before
the instant 10 s (timestamps in nanoseconds). -/
def scanSampleDB : DB :=
  ⟨[sampleRepo], [samplePolicy], [], [(1, 8800000000)], [], [], []⟩

/-- One policy-matched repository that was never index-scanned. -/
def freshScanDB : DB := ⟨[sampleRepo], [samplePolicy], [], [], [], [], []⟩

/-- A database whose only repository row is soft-deleted. -/
def deletedRepoDB : DB :=
  ⟨[⟨1, "deleted-repo", some 5, false, none⟩], [], [], [], [], [], []⟩

/-- A database with one clean dirty record for repository 1. -/
def cleanDirtyDB : DB := ⟨[sampleRepo], [], [], [], [], [⟨1, 3, 3, some 100⟩], []⟩

/-- A database with one stale dirty record, set dirty at the instant 500 s. -/
def staleDirtyDB : DB :=
  ⟨[sampleRepo], [], [], [], [], [⟨1, 2, 1, some 500000000000⟩], []⟩

/-- A completed upload and a fresh (non-stale) dirty record for repository 1. -/
def retentionSampleDB : DB :=
  ⟨[sampleRepo], [], [], [], [], [⟨1, 2, 2, some 0⟩], [⟨1, "completed"⟩]⟩

/-- A database with one stale dirty record set dirty 1.6 s before the
instant 600 s. -/
def roundDirtyDB : DB :=
  ⟨[sampleRepo], [], [], [], [], [⟨1, 2, 1, some 598400000000⟩], []⟩

/-- A database whose stale dirty record has a NULL `set_dirty_at`, the state
the insert arm of `setRepositoryAsDirtyQuery` creates. -/
def nullDirtyDB : DB :=
  ⟨[sampleRepo], [], [], [], [], [⟨1, 1, 0, none⟩], []⟩

/-! ### Helper lemmas -/

theorem maxAge_cons (a b : Int) (l : List Int) :
    maxAge a (b :: l) = maxAge (max a b) l := rfl

theorem le_maxAge (a : Int) (l : List Int) : a ≤ maxAge a l := by
  induction l generalizing a with
  | nil => simp [maxAge]
  | cons b bs ih =>
    rw [maxAge_cons]
    exact le_trans (le_max_left a b) (ih _)

theorem le_maxAge_of_mem (x : Int) (l : List Int) :
    ∀ a : Int, x ∈ l → x ≤ maxAge a l := by
  induction l with
  | nil => intro a hx; cases hx
  | cons b bs ih =>
    intro a hx
    rw [maxAge_cons]
    rcases List.mem_cons.mp hx with h | h
    · subst h
      exact le_trans (le_max_right a x) (le_maxAge _ _)
    · exact ih _ h

theorem maxAge_mem (a : Int) (l : List Int) : maxAge a l = a ∨ maxAge a l ∈ l := by
  induction l generalizing a with
  | nil => left; rfl
  | cons b bs ih =>
    rw [maxAge_cons]
    rcases ih (max a b) with h | h
    · rcases max_choice a b with hm | hm
      · left; rw [h, hm]
      · right; rw [h, hm]; exact List.mem_cons_self _ _
    · right; exact List.mem_cons_of_mem _ h

theorem epochSecondsInt_mul (k : Int) : epochSecondsInt (k * nsPerSecond) = k := by
  unfold epochSecondsInt nsPerSecond
  have h : (500000000 + k * 1000000000 : Int).ediv 1000000000 =
      (500000000 : Int).ediv 1000000000 + k :=
    Int.add_mul_ediv_right _ _ (by decide)
  rw [Int.add_comm, h, show (500000000 : Int).ediv 1000000000 = 0 from by decide,
    zero_add]

theorem mem_insertSorted {α : Type} (le : α → α → Bool) (x a : α) (l : List α) :
    a ∈ insertSorted le x l ↔ a = x ∨ a ∈ l := by
  induction l with
  | nil => simp [insertSorted]
  | cons y ys ih =>
    simp only [insertSorted]
    split
    · simp
    · simp [ih]
      tauto

theorem mem_sortBy {α : Type} (le : α → α → Bool) (a : α) (l : List α) :
    a ∈ sortBy le l ↔ a ∈ l := by
  induction l with
  | nil => simp [sortBy]
  | cons x xs ih => simp [sortBy, mem_insertSorted, ih]

theorem lookupTime_nil (j : RepoId) : lookupTime [] j = none := rfl

theorem lookupTime_cons (e : RepoId × Time) (es : List (RepoId × Time))
    (j : RepoId) :
    lookupTime (e :: es) j = if e.1 = j then some e.2 else lookupTime es j := by
  by_cases h : e.1 = j <;> simp [lookupTime, List.find?_cons, h]

theorem lookupTime_upsertScan (l : List (RepoId × Time)) (id : RepoId)
    (now : Time) (j : RepoId) :
    lookupTime (upsertScan l id now) j =
      if j = id then some now else lookupTime l j := by
  induction l with
  | nil =>
    by_cases hj : j = id <;>
      simp [upsertScan, lookupTime_cons, lookupTime_nil, hj, Ne.symm]
  | cons e es ih =>
    simp only [upsertScan]
    by_cases hid : e.1 = id
    · by_cases hj : j = id <;>
        simp [hid, hj, lookupTime_cons, Ne.symm]
    · have : (e.1 == id) = false := by simpa using hid
      rw [this]
      simp only [Bool.false_eq_true, if_false, lookupTime_cons, ih]
      by_cases hj : j = id
      · subst hj
        have : e.1 ≠ j := hid
        simp [this]
      · simp [hj]

theorem lookupDirty_markDirtyRows (rows : List DirtyRecord) (id : RepoId)
    (now : Time) :
    (markDirtyRows rows id now).find? (fun d => d.repository_id == id) =
      some (markDirtyRecord (rows.find? (fun d => d.repository_id == id)) id now) := by
  induction rows with
  | nil => simp [markDirtyRows, markDirtyRecord, List.find?]
  | cons d ds ih =>
    simp only [markDirtyRows]
    by_cases hd : d.repository_id = id
    · simp [List.find?_cons, hd, markDirtyRecord]
    · have hb : (d.repository_id == id) = false := by simpa using hd
      simp only [hb, Bool.false_eq_true, if_false, List.find?_cons, ih]

theorem lookupDirty_setRepositoryAsDirty (db : DB) (id : RepoId) (now : Time) :
    lookupDirty (setRepositoryAsDirty db id now) id =
      some (markDirtyRecord (lookupDirty db id) id now) := by
  simp [lookupDirty, setRepositoryAsDirty, lookupDirty_markDirtyRows]

theorem lookupTime_claimAll (l : List (RepoId × Time)) (ids : List RepoId)
    (now : Time) (j : RepoId) :
    lookupTime (claimAll l ids now) j =
      if j ∈ ids then some now else lookupTime l j := by
  induction ids generalizing l with
  | nil => simp [claimAll]
  | cons x xs ih =>
    have hstep : claimAll l (x :: xs) now = claimAll (upsertScan l x now) xs now := rfl
    rw [hstep, ih, lookupTime_upsertScan]
    by_cases hj : j ∈ xs <;> by_cases hx : j = x <;> simp [hj, hx]

theorem mem_indexScanSelection {db : DB} {allow : Bool} {ml : Option Int}
    {now : Time} {ds : Int} {lim : Int} {id : RepoId}
    (h : id ∈ indexScanSelection db allow ml now ds lim) :
    id ∈ candidateRepositories db allow ml ∧
      scanDue now ds (lookupTime db.scanLedger id) = true := by
  unfold indexScanSelection at h
  rcases List.mem_map.mp h with ⟨e, hmem, he⟩
  have htake : e ∈ sortBy scanOrder
      (((candidateRepositories db allow ml).map
        (fun i => (i, lookupTime db.scanLedger i))).filter
          (fun e => scanDue now ds e.2)) := List.take_subset _ _ hmem
  have hfiltmem := (mem_sortBy _ _ _).mp htake
  have hfilt := List.mem_filter.mp hfiltmem
  rcases List.mem_map.mp hfilt.1 with ⟨c, hc, hce⟩
  have h1 : c = id := by
    have : e.1 = id := he
    rw [← hce] at this
    exact this
  subst h1
  refine ⟨hc, ?_⟩
  have h2 : e.2 = lookupTime db.scanLedger c := by rw [← hce]
  rw [← h2]
  exact hfilt.2

theorem mem_retentionScanSelection {db : DB} {now : Time} {ds : Int}
    {lim : Int} {id : RepoId}
    (h : id ∈ retentionScanSelection db now ds lim) :
    id ∈ retentionCandidates db ∧
      (∃ dr, lookupDirty db id = some dr ∧ dr.update_token = dr.dirty_token) ∧
      scanDue now ds (lookupTime db.retentionLedger id) = true := by
  unfold retentionScanSelection at h
  rcases List.mem_map.mp h with ⟨e, hmem, he⟩
  have htake : e ∈ sortBy scanOrder
      (((retentionCandidates db).filterMap (fun i =>
        match lookupDirty db i with
        | none => none
        | some dr =>
          if dr.update_token == dr.dirty_token then
            some (i, lookupTime db.retentionLedger i)
          else none)).filter (fun e => scanDue now ds e.2)) :=
    List.take_subset _ _ hmem
  have hfiltmem := (mem_sortBy _ _ _).mp htake
  have hfilt := List.mem_filter.mp hfiltmem
  rcases List.mem_filterMap.mp hfilt.1 with ⟨c, hc, hce⟩
  cases hdr : lookupDirty db c with
  | none => rw [hdr] at hce; simp at hce
  | some dr =>
    rw [hdr] at hce
    dsimp only at hce
    by_cases htok : dr.update_token == dr.dirty_token
    · rw [if_pos htok] at hce
      have hec : e = (c, lookupTime db.retentionLedger c) := by
        injection hce with h1
        exact h1.symm
      have h1 : c = id := by rw [hec] at he; exact he
      subst h1
      exact ⟨hc, ⟨dr, hdr, by simpa using htok⟩, by simpa [hec] using hfilt.2⟩
    · rw [if_neg htok] at hce; simp at hce

theorem mem_maxStaleAges {db : DB} {now : Time} {e : Option Int} :
    e ∈ maxStaleAges db now ↔
      ∃ d ∈ db.dirty, dirtyVisible db d = true ∧
        e = d.set_dirty_at.map (fun t => epochSecondsInt (now - t)) := by
  unfold maxStaleAges
  rw [List.mem_filterMap]
  constructor
  · rintro ⟨d, hd, hfd⟩
    by_cases hv : dirtyVisible db d = true
    · rw [if_pos hv] at hfd
      exact ⟨d, hd, hv, (Option.some.inj hfd).symm⟩
    · rw [if_neg hv] at hfd
      cases hfd
  · rintro ⟨d, hd, hv, he⟩
    exact ⟨d, hd, by rw [if_pos hv, he]⟩

theorem scanDue_some (now : Time) (ds : Int) (t : Time) :
    scanDue now ds (some t) = decide (now - t > ds * nsPerSecond) := rfl

theorem scanDue_none (now : Time) (ds : Int) : scanDue now ds none = true := rfl

/-- C6 (amended): `MaxStaleAge(now)` returns the largest `now - set_dirty_at`
rounded to whole seconds over all currently-stale, non-soft-deleted,
non-blocked repositories whose `set_dirty_at` is set — zero when there is no
such stale repository — and it fails with an error instead of returning a
value whenever some such stale record has a NULL `set_dirty_at` (the state the
insert arm of `setRepositoryAsDirtyQuery` creates). -/
theorem getRepositoriesMaxStaleAge_rounded (db : DB) (now : Time) :
    ((∃ d ∈ db.dirty, dirtyVisible db d = true ∧ d.set_dirty_at = none) →
      getRepositoriesMaxStaleAge db now = Except.error ()) ∧
    ((∀ d ∈ db.dirty, dirtyVisible db d = true → d.set_dirty_at ≠ none) →
      ∃ r : Duration, getRepositoriesMaxStaleAge db now = Except.ok r ∧
        (∀ d ∈ db.dirty, dirtyVisible db d = true →
          ∀ t, d.set_dirty_at = some t →
            epochSecondsInt (now - t) * nsPerSecond ≤ r) ∧
        ((∀ d ∈ db.dirty, dirtyVisible db d = false) → r = 0) ∧
        ((∃ d ∈ db.dirty, dirtyVisible db d = true) →
          ∃ d ∈ db.dirty, dirtyVisible db d = true ∧
            ∃ t, d.set_dirty_at = some t ∧
              r = epochSecondsInt (now - t) * nsPerSecond)) := by
  constructor
  · rintro ⟨d, hd, hv, hnull⟩
    have hmem : (none : Option Int) ∈ maxStaleAges db now :=
      mem_maxStaleAges.mpr ⟨d, hd, hv, by rw [hnull]; rfl⟩
    have hany : (maxStaleAges db now).any (fun a => a.isNone) = true :=
      List.any_eq_true.mpr ⟨none, hmem, rfl⟩
    unfold getRepositoriesMaxStaleAge
    simp only [hany, if_true]
  · intro hone
    have hnone : (maxStaleAges db now).any (fun a => a.isNone) = false := by
      rw [Bool.eq_false_iff]
      intro hc
      rcases List.any_eq_true.mp hc with ⟨o, ho, hno⟩
      rcases mem_maxStaleAges.mp ho with ⟨d, hd, hv, he⟩
      cases hsd : d.set_dirty_at with
      | none => exact hone d hd hv hsd
      | some t =>
        rw [hsd] at he
        rw [he] at hno
        simp at hno
    have hval : ∀ x : Int, x ∈ (maxStaleAges db now).filterMap id ↔
        ∃ d ∈ db.dirty, dirtyVisible db d = true ∧
          ∃ t, d.set_dirty_at = some t ∧ x = epochSecondsInt (now - t) := by
      intro x
      rw [List.mem_filterMap]
      constructor
      · rintro ⟨o, ho, hid⟩
        rcases mem_maxStaleAges.mp ho with ⟨d, hd, hv, he⟩
        have ho2 : o = some x := hid
        subst ho2
        cases hsd : d.set_dirty_at with
        | none => exact absurd hsd (hone d hd hv)
        | some t =>
          rw [hsd] at he
          simp only [Option.map_some'] at he
          exact ⟨d, hd, hv, t, hsd, Option.some.inj he⟩
      · rintro ⟨d, hd, hv, t, ht, hx⟩
        refine ⟨some x, mem_maxStaleAges.mpr ⟨d, hd, hv, ?_⟩, rfl⟩
        rw [ht]
        simp [hx]
    unfold getRepositoriesMaxStaleAge
    simp only [hnone, Bool.false_eq_true, if_false]
    cases hv : (maxStaleAges db now).filterMap id with
    | nil =>
      refine ⟨0, rfl, ?_, fun _ => rfl, ?_⟩
      · intro d hd hdv t ht
        have : epochSecondsInt (now - t) ∈ (maxStaleAges db now).filterMap id :=
          (hval _).mpr ⟨d, hd, hdv, t, ht, rfl⟩
        rw [hv] at this
        cases this
      · rintro ⟨d, hd, hdv⟩
        cases hsd : d.set_dirty_at with
        | none => exact absurd hsd (hone d hd hdv)
        | some t =>
          have : epochSecondsInt (now - t) ∈
              (maxStaleAges db now).filterMap id :=
            (hval _).mpr ⟨d, hd, hdv, t, hsd, rfl⟩
          rw [hv] at this
          cases this
    | cons a rest =>
      refine ⟨maxAge a rest * nsPerSecond, rfl, ?_, ?_, ?_⟩
      · intro d hd hdv t ht
        have hxmem : epochSecondsInt (now - t) ∈
            (maxStaleAges db now).filterMap id :=
          (hval _).mpr ⟨d, hd, hdv, t, ht, rfl⟩
        rw [hv] at hxmem
        have hle : epochSecondsInt (now - t) ≤ maxAge a rest := by
          rcases List.mem_cons.mp hxmem with h | h
          · rw [h]; exact le_maxAge _ _
          · exact le_maxAge_of_mem _ _ _ h
        exact mul_le_mul_of_nonneg_right hle (by unfold nsPerSecond; decide)
      · intro hall
        have hamem : a ∈ (maxStaleAges db now).filterMap id := by
          rw [hv]; exact List.mem_cons_self _ _
        rcases (hval _).mp hamem with ⟨d, hd, hdv, -⟩
        rw [hall d hd] at hdv
        cases hdv
      · intro _
        have hmmem : maxAge a rest ∈ (maxStaleAges db now).filterMap id := by
          rw [hv]
          rcases maxAge_mem a rest with h | h
          · rw [h]; exact List.mem_cons_self _ _
          · exact List.mem_cons_of_mem _ h
        rcases (hval _).mp hmmem with ⟨d, hd, hdv, t, ht, hm⟩
        exact ⟨d, hd, hdv, t, ht, by rw [hm]⟩

/-! ### Claim theorems -/

/-- C1: both candidate-selection operations set the scan ledger's
`last_scan_at` column to the call's `now` for exactly the returned ids, in the
same single statement that decides the result; and a failed round trip surfaces
no ids and leaves the ledger untouched. -/
theorem indexScan_upsert_exactly_returned (db : DB) (d : Duration)
    (allow : Bool) (ml : Option Int) (lim : Int) (now : Time) :
    (∀ id : RepoId,
      lookupTime (getRepositoriesForIndexScan db d allow ml lim now).2.scanLedger id =
        if id ∈ (getRepositoriesForIndexScan db d allow ml lim now).1 then some now
        else lookupTime db.scanLedger id) ∧
    (∀ id : RepoId,
      lookupTime
          (setRepositoriesForRetentionScanWithTime db d lim now).2.retentionLedger id =
        if id ∈ (setRepositoriesForRetentionScanWithTime db d lim now).1 then some now
        else lookupTime db.retentionLedger id) ∧
    runGetRepositoriesForIndexScan true db d allow ml lim now = (none, db) ∧
    runSetRepositoriesForRetentionScanWithTime true db d lim now = (none, db) := by
  refine ⟨?_, ?_, rfl, rfl⟩
  · intro id
    exact lookupTime_claimAll _ _ _ _
  · intro id
    exact lookupTime_claimAll _ _ _ _

/-- C2: two `GetRepositoriesForIndexScan` calls with the same scan kind,
process delay and `now`, executed one after the other as atomic statements
(their serialization under statement-level atomicity), return disjoint
repository-id sets, provided the process delay is non-negative. -/
theorem indexScan_claim_exclusivity (db : DB) (d : Duration) (allow : Bool)
    (ml : Option Int) (lim : Int) (now : Time) (hd : 0 ≤ d) :
    ∀ id ∈ (getRepositoriesForIndexScan db d allow ml lim now).1,
      id ∉ (getRepositoriesForIndexScan
        (getRepositoriesForIndexScan db d allow ml lim now).2 d allow ml lim now).1 := by
  intro id h1 h2
  have hsel2 : id ∈ indexScanSelection
      (getRepositoriesForIndexScan db d allow ml lim now).2 allow ml now
      (durationToSeconds d) lim := h2
  obtain ⟨-, hdue⟩ := mem_indexScanSelection hsel2
  have hledger : (getRepositoriesForIndexScan db d allow ml lim now).2.scanLedger =
      claimAll db.scanLedger (getRepositoriesForIndexScan db d allow ml lim now).1 now :=
    rfl
  rw [hledger, lookupTime_claimAll, if_pos h1, scanDue_some, decide_eq_true_eq,
    sub_self] at hdue
  have hds : 0 ≤ durationToSeconds d :=
    Int.tdiv_nonneg hd (by unfold nsPerSecond; decide)
  exact absurd (mul_nonneg hds (by unfold nsPerSecond; decide))
    (not_le_of_gt hdue)

/-- C2 witness: a concrete pair of back-to-back calls on a one-repository
database with a 60-second delay; the first call claims repository 1 and the
second returns a set not containing it. -/
theorem indexScan_claim_exclusivity_witness :
    (0 : Int) ≤ 60000000000 ∧
    1 ∉ (getRepositoriesForIndexScan
      (getRepositoriesForIndexScan freshScanDB 60000000000 false none 10 1000).2
      60000000000 false none 10 1000).1 :=
  ⟨by decide,
    indexScan_claim_exclusivity freshScanDB 60000000000 false none 10 1000
      (by decide) 1 (by decide)⟩

/-- C3 counterexample: with `processDelay = 1.5 s` and a repository last
scanned 1.2 s before `now` (so `now - last_scan_at ≤ processDelay`), the call
still returns the repository, because the code compares against the delay
truncated to whole seconds (1 s). -/
theorem stalenessGate_counterexample :
    lookupTime scanSampleDB.scanLedger 1 = some 8800000000 ∧
    (10000000000 : Int) - 8800000000 ≤ 1500000000 ∧
    1 ∈ (getRepositoriesForIndexScan scanSampleDB 1500000000 false none 10
      10000000000).1 :=
  ⟨by decide, by decide, by decide⟩

/-- C3 (amended): the staleness gate compares `now - last_scan_at` against
`processDelay` truncated to whole seconds: a repository whose entry satisfies
`now - last_scan_at ≤ trunc(processDelay)` is excluded from the returned set,
the gate passes an existing entry exactly when `now - last_scan_at` strictly
exceeds the truncated delay, and a repository with no entry always passes. -/
theorem stalenessGate_truncated (db : DB) (allow : Bool) (ml : Option Int)
    (d : Duration) (lim : Int) (now : Time) (id : RepoId) (t : Time) :
    (lookupTime db.scanLedger id = some t →
      now - t ≤ durationToSeconds d * nsPerSecond →
      id ∉ (getRepositoriesForIndexScan db d allow ml lim now).1) ∧
    (scanDue now (durationToSeconds d) (some t) =
      decide (now - t > durationToSeconds d * nsPerSecond)) ∧
    scanDue now (durationToSeconds d) none = true := by
  refine ⟨?_, rfl, rfl⟩
  intro hl hle hmem
  obtain ⟨-, hdue⟩ := mem_indexScanSelection
    (show id ∈ indexScanSelection db allow ml now (durationToSeconds d) lim
      from hmem)
  rw [hl, scanDue_some, decide_eq_true_eq] at hdue
  exact absurd hdue (not_lt.mpr hle)

/-- C3 witness: with a 3-second delay the repository scanned 1.2 s ago is
excluded. -/
theorem stalenessGate_truncated_witness :
    lookupTime scanSampleDB.scanLedger 1 = some 8800000000 ∧
    1 ∉ (getRepositoriesForIndexScan scanSampleDB 3000000000 false none 10
      10000000000).1 :=
  ⟨by decide,
    (stalenessGate_truncated scanSampleDB false none 3000000000 10 10000000000
      1 8800000000).1 (by decide) (by decide)⟩

/-- C4: `SetRepositoryAsDirty` creates the record as `(dirty_token, update_token)
= (1, 0)` when absent; otherwise it increments `dirty_token` and refreshes
`set_dirty_at` exactly when the record was clean immediately before the call;
consequently two calls with no intervening consumption leave `set_dirty_at`
unchanged after the first while `dirty_token` increases both times (under the
ledger invariant `update_token ≤ dirty_token`). -/
theorem setRepositoryAsDirty_spec (db : DB) (id : RepoId) (now1 now2 : Time)
    (hinv : ∀ d ∈ db.dirty, d.update_token ≤ d.dirty_token) :
    (lookupDirty db id = none →
      lookupDirty (setRepositoryAsDirty db id now1) id = some ⟨id, 1, 0, none⟩) ∧
    (∀ d, lookupDirty db id = some d →
      lookupDirty (setRepositoryAsDirty db id now1) id =
        some { d with
          dirty_token := d.dirty_token + 1,
          set_dirty_at :=
            if d.update_token = d.dirty_token then some now1
            else d.set_dirty_at }) ∧
    (∀ d1 d2,
      lookupDirty (setRepositoryAsDirty db id now1) id = some d1 →
      lookupDirty (setRepositoryAsDirty (setRepositoryAsDirty db id now1) id now2)
        id = some d2 →
      d2.set_dirty_at = d1.set_dirty_at ∧ d2.dirty_token = d1.dirty_token + 1) := by
  have h1 := lookupDirty_setRepositoryAsDirty db id now1
  have h2 := lookupDirty_setRepositoryAsDirty (setRepositoryAsDirty db id now1)
    id now2
  refine ⟨?_, ?_, ?_⟩
  · intro h0
    rw [h1, h0]
    rfl
  · intro d hd
    rw [h1, hd]
    by_cases h : d.update_token = d.dirty_token <;> simp [markDirtyRecord, h]
  · intro d1 d2 hd1 hd2
    rw [h1] at hd1
    rw [h2, h1] at hd2
    have hd1e : d1 = markDirtyRecord (lookupDirty db id) id now1 :=
      (Option.some.inj hd1).symm
    have hd2e : d2 = markDirtyRecord
        (some (markDirtyRecord (lookupDirty db id) id now1)) id now2 :=
      (Option.some.inj hd2).symm
    cases hld : lookupDirty db id with
    | none =>
      rw [hld] at hd1e hd2e
      subst hd1e
      subst hd2e
      exact ⟨by simp [markDirtyRecord], by simp [markDirtyRecord]⟩
    | some d0 =>
      have hmem : d0 ∈ db.dirty := List.mem_of_find?_eq_some hld
      have hto : d0.update_token ≤ d0.dirty_token := hinv d0 hmem
      rw [hld] at hd1e hd2e
      subst hd1e
      subst hd2e
      have hne : ¬d0.update_token = d0.dirty_token + 1 := by omega
      exact ⟨by simp [markDirtyRecord, hne], by simp [markDirtyRecord]⟩

/-- C4 witness: on a clean record `(dirty_token, update_token) = (3, 3)` with
`set_dirty_at = 100`, marking at 200 then at 300 yields tokens 4 then 5 while
`set_dirty_at` stays at 200 after the first call. -/
theorem setRepositoryAsDirty_spec_witness :
    lookupDirty (setRepositoryAsDirty cleanDirtyDB 1 200) 1 =
      some ⟨1, 4, 3, some 200⟩ ∧
    lookupDirty
        (setRepositoryAsDirty (setRepositoryAsDirty cleanDirtyDB 1 200) 1 300) 1 =
      some ⟨1, 5, 3, some 200⟩ ∧
    (⟨1, 5, 3, some 200⟩ : DirtyRecord).set_dirty_at =
      (⟨1, 4, 3, some 200⟩ : DirtyRecord).set_dirty_at := by
  have h := setRepositoryAsDirty_spec cleanDirtyDB 1 200 300 (by decide)
  refine ⟨(h.2.1 ⟨1, 3, 3, some 100⟩ (by decide)).trans (by decide), by decide, ?_⟩
  exact (h.2.2 ⟨1, 4, 3, some 200⟩ ⟨1, 5, 3, some 200⟩
    ((h.2.1 ⟨1, 3, 3, some 100⟩ (by decide)).trans (by decide)) (by decide)).1

/-- C5: `GetDirtyRepositories` returns exactly the `(repository_id, dirty_token)`
pairs of the dirty records with `dirty_token > update_token` whose repository
exists and is neither soft-deleted nor blocked; a record with
`dirty_token = update_token` never contributes. -/
theorem getDirtyRepositories_spec (db : DB) (id : RepoId) (tok : Int) :
    (id, tok) ∈ getDirtyRepositories db ↔
      ∃ dr ∈ db.dirty, dr.repository_id = id ∧ dr.dirty_token = tok ∧
        dr.update_token < dr.dirty_token ∧
        ∃ r ∈ db.repos, r.id = id ∧ r.deleted_at = none ∧ r.blocked = false := by
  unfold getDirtyRepositories
  rw [List.mem_filterMap]
  constructor
  · rintro ⟨dr, hd, hde⟩
    by_cases hv : dirtyVisible db dr = true
    · rw [if_pos hv] at hde
      obtain ⟨h1, h2⟩ := Prod.mk.inj (Option.some.inj hde)
      unfold dirtyVisible at hv
      rw [Bool.and_eq_true] at hv
      obtain ⟨hgt, hany⟩ := hv
      rcases List.any_eq_true.mp hany with ⟨r, hr, hrp⟩
      simp only [Bool.and_eq_true, beq_iff_eq, Option.isNone_iff_eq_none,
        Bool.not_eq_true'] at hrp
      refine ⟨dr, hd, h1, h2, by simpa using hgt, r, hr, ?_, hrp.1.2, hrp.2⟩
      rw [hrp.1.1, h1]
    · rw [if_neg hv] at hde
      cases hde
  · rintro ⟨dr, hd, h1, h2, hgt, r, hr, hrid, hrdel, hrblk⟩
    refine ⟨dr, hd, ?_⟩
    have hv : dirtyVisible db dr = true := by
      unfold dirtyVisible
      rw [Bool.and_eq_true]
      refine ⟨by simpa using hgt, List.any_eq_true.mpr ⟨r, hr, ?_⟩⟩
      simp [hrid, h1, hrdel, hrblk]
    rw [if_pos hv, h1, h2]

/-- C5 witness: the stale record `(dirty_token, update_token) = (2, 1)` of the
live repository 1 appears with its dirty token. -/
theorem getDirtyRepositories_spec_witness :
    (1, 2) ∈ getDirtyRepositories staleDirtyDB :=
  (getDirtyRepositories_spec staleDirtyDB 1 2).mpr
    ⟨⟨1, 2, 1, some 500000000000⟩, by decide, rfl, rfl, by decide, sampleRepo,
      by decide, rfl, rfl, rfl⟩

/-- C6 counterexample: a stale repository set dirty 1.6 s before `now` makes
`GetRepositoriesMaxStaleAge` return 2 s — not the largest `now - set_dirty_at`,
which is 1.6 s — and a stale record with a NULL `set_dirty_at` (the state the
insert arm of `setRepositoryAsDirtyQuery` creates) makes the operation error
instead of returning a value. -/
theorem maxStaleAge_counterexample :
    lookupDirty roundDirtyDB 1 = some ⟨1, 2, 1, some 598400000000⟩ ∧
    (600000000000 : Int) - 598400000000 = 1600000000 ∧
    getRepositoriesMaxStaleAge roundDirtyDB 600000000000 =
      Except.ok 2000000000 ∧
    (2000000000 : Int) ≠ 1600000000 ∧
    getRepositoriesMaxStaleAge nullDirtyDB 600000000000 = Except.error () :=
  ⟨rfl, by decide, rfl, by decide, rfl⟩

/-- C6 witness: the stale record set dirty 1.6 s before `now` is bounded by
the returned 2 s maximum, and the NULL-`set_dirty_at` database errors. -/
theorem getRepositoriesMaxStaleAge_rounded_witness :
    getRepositoriesMaxStaleAge roundDirtyDB 600000000000 =
      Except.ok 2000000000 ∧
    epochSecondsInt (600000000000 - 598400000000) * nsPerSecond ≤ 2000000000 ∧
    getRepositoriesMaxStaleAge nullDirtyDB 600000000000 = Except.error () := by
  obtain ⟨r, hr, hub, -, -⟩ :=
    (getRepositoriesMaxStaleAge_rounded roundDirtyDB 600000000000).2
      (by
        intro d hd hv
        have hd2 : d = ⟨1, 2, 1, some 598400000000⟩ := by
          simpa [roundDirtyDB] using hd
        subst hd2
        decide)
  have hconc : getRepositoriesMaxStaleAge roundDirtyDB 600000000000 =
      Except.ok 2000000000 := rfl
  rw [hconc] at hr
  have hrv : (2000000000 : Int) = r := Except.ok.inj hr
  refine ⟨hconc, ?_, ?_⟩
  · have hb := hub ⟨1, 2, 1, some 598400000000⟩ (by decide) (by decide)
      598400000000 rfl
    rw [← hrv] at hb
    exact hb
  · exact (getRepositoriesMaxStaleAge_rounded nullDirtyDB 600000000000).1
      ⟨⟨1, 1, 0, none⟩, by decide, by decide, rfl⟩

/-- C7: with global policies not explicitly allowed, the global branch of
`getRepositoriesForIndexScanQuery` contributes no repositories, exactly the
repositories named by an enabled fixed-id policy or listed for an enabled
pattern policy match, and the call still returns a result rather than an
error. -/
theorem globalPoliciesDisabled_spec (db : DB) (ml : Option Int) (id : RepoId)
    (d : Duration) (lim : Int) (now : Time) :
    globalPolicyRepositories db false ml = [] ∧
    (id ∈ repositoriesMatchingPolicy db false ml ↔
      (∃ p ∈ db.policies, p.indexing_enabled = true ∧ p.repository_id = some id) ∨
      (∃ rpl ∈ db.patternLookup, rpl.repo_id = id ∧
        ∃ p ∈ db.policies, p.id = rpl.policy_id ∧ p.indexing_enabled = true)) ∧
    (runGetRepositoriesForIndexScan false db d false ml lim now).1 =
      some (getRepositoriesForIndexScan db d false ml lim now).1 := by
  refine ⟨by unfold globalPolicyRepositories; simp, ?_, rfl⟩
  unfold repositoriesMatchingPolicy
  rw [show globalPolicyRepositories db false ml = [] from by
    unfold globalPolicyRepositories; simp]
  rw [List.nil_append, List.mem_append]
  constructor
  · rintro (h | h)
    · left
      unfold fixedIdPolicyRepositories at h
      rcases List.mem_filterMap.mp h with ⟨p, hp, hpe⟩
      by_cases he : p.indexing_enabled = true
      · rw [if_pos he] at hpe
        exact ⟨p, hp, he, hpe⟩
      · rw [if_neg he] at hpe
        cases hpe
    · right
      unfold patternPolicyRepositories at h
      rcases List.mem_filterMap.mp h with ⟨rpl, hrpl, hre⟩
      by_cases he : db.policies.any
          (fun p => p.id == rpl.policy_id && p.indexing_enabled) = true
      · rw [if_pos he] at hre
        rcases List.any_eq_true.mp he with ⟨p, hp, hpp⟩
        rw [Bool.and_eq_true] at hpp
        exact ⟨rpl, hrpl, Option.some.inj hre, p, hp, by simpa using hpp.1,
          hpp.2⟩
      · rw [if_neg he] at hre
        cases hre
  · rintro (⟨p, hp, he, hid⟩ | ⟨rpl, hrpl, hid, p, hp, hpid, he⟩)
    · left
      exact List.mem_filterMap.mpr ⟨p, hp, by rw [if_pos he, hid]⟩
    · right
      refine List.mem_filterMap.mpr ⟨rpl, hrpl, ?_⟩
      rw [if_pos (List.any_eq_true.mpr ⟨p, hp, by simp [hpid, he]⟩), hid]

/-- C7 witness: with global policies disallowed, repository 1 still matches
through the fixed-id policy. -/
theorem globalPoliciesDisabled_spec_witness :
    1 ∈ repositoriesMatchingPolicy freshScanDB false none :=
  (globalPoliciesDisabled_spec freshScanDB none 1 0 10 0).2.1.mpr
    (Or.inl ⟨samplePolicy, by decide, rfl, rfl⟩)

/-- C8 counterexample: `RepoName` on a soft-deleted repository returns the
repository's name rather than the unknown-repository error: the query does not
filter on `deleted_at`. -/
theorem repoName_counterexample :
    (∃ r ∈ deletedRepoDB.repos, r.id = 1 ∧ r.deleted_at ≠ none) ∧
    repoName deletedRepoDB 1 = Except.ok "deleted-repo" :=
  ⟨by decide, rfl⟩

/-- C8 (amended): `RepoName` fails with the distinct unknown-repository error
exactly for ids with no `repo` row at all; for any id with a row — soft-deleted
or not — it returns that row's name. -/
theorem repoName_amended (db : DB) (id : RepoId) :
    (repoName db id = Except.error StoreErr.unknownRepository ↔
      ∀ r ∈ db.repos, r.id ≠ id) ∧
    (∀ r, db.repos.find? (fun r => r.id == id) = some r →
      repoName db id = Except.ok r.name) := by
  constructor
  · unfold repoName
    cases hf : db.repos.find? (fun r => r.id == id) with
    | none =>
      rw [List.find?_eq_none] at hf
      constructor
      · intro _ r hr
        have := hf r hr
        simpa using this
      · intro _
        rfl
    | some r =>
      constructor
      · intro h
        cases h
      · intro hall
        have hrmem : r ∈ db.repos := List.mem_of_find?_eq_some hf
        have hpr : (r.id == id) = true :=
          @List.find?_some _ (fun r => r.id == id) r db.repos hf
        exact absurd (by simpa using hpr) (hall r hrmem)
  · intro r hf
    unfold repoName
    rw [hf]

/-- C8 witness: id 2 has no row and yields the unknown-repository error; id 1's
row exists (though soft-deleted) and its name is returned. -/
theorem repoName_amended_witness :
    repoName deletedRepoDB 2 = Except.error StoreErr.unknownRepository ∧
    repoName deletedRepoDB 1 = Except.ok "deleted-repo" :=
  ⟨(repoName_amended deletedRepoDB 2).1.mpr (by decide),
    (repoName_amended deletedRepoDB 1).2 ⟨1, "deleted-repo", some 5, false, none⟩
      rfl⟩

/-- C9: every repository id returned by the retention-scan selection has a
completed upload and an existing dirty record whose `update_token` equals its
`dirty_token`; a repository with no dirty record is never selected. -/
theorem retentionScan_selection_conditions (db : DB) (d : Duration) (lim : Int)
    (now : Time) (id : RepoId) :
    (id ∈ (setRepositoriesForRetentionScanWithTime db d lim now).1 →
      (∃ u ∈ db.uploads, u.repository_id = id ∧ u.state = "completed") ∧
      (∃ dr, lookupDirty db id = some dr ∧ dr.update_token = dr.dirty_token)) ∧
    (lookupDirty db id = none →
      id ∉ (setRepositoriesForRetentionScanWithTime db d lim now).1) := by
  have hsel : (setRepositoriesForRetentionScanWithTime db d lim now).1 =
      retentionScanSelection db now (durationToSeconds d) lim := rfl
  constructor
  · intro hmem
    rw [hsel] at hmem
    obtain ⟨hcand, hdr, -⟩ := mem_retentionScanSelection hmem
    refine ⟨?_, hdr⟩
    unfold retentionCandidates at hcand
    rw [List.mem_dedup] at hcand
    rcases List.mem_map.mp hcand with ⟨u, hu, hui⟩
    have hu2 := List.mem_filter.mp hu
    exact ⟨u, hu2.1, hui, by simpa using hu2.2⟩
  · intro hnone hmem
    rw [hsel] at hmem
    obtain ⟨-, ⟨dr, hdr, -⟩, -⟩ := mem_retentionScanSelection hmem
    rw [hnone] at hdr
    cases hdr

/-- C9 witness: repository 1 (completed upload, fresh dirty record) is
selected and satisfies both conditions; repository 2 (no dirty record) is not
selected. -/
theorem retentionScan_selection_conditions_witness :
    2 ∉ (setRepositoriesForRetentionScanWithTime retentionSampleDB 60000000000
      10 1000000000000).1 ∧
    (∃ u ∈ retentionSampleDB.uploads, u.repository_id = 1 ∧
      u.state = "completed") := by
  have h := retentionScan_selection_conditions retentionSampleDB 60000000000 10
    1000000000000
  exact ⟨(h 2).2 (by decide), ((h 1).1 (by decide)).1⟩

/-- C10: both scan operations pass `int(processDelay / time.Second)` to the
query, so the gate compares against the delay truncated to whole seconds and
any two delays with the same truncation produce identical results. -/
theorem processDelay_truncation (db : DB) (allow : Bool) (ml : Option Int)
    (lim : Int) (now : Time) (d1 d2 : Duration)
    (h : durationToSeconds d1 = durationToSeconds d2) :
    getRepositoriesForIndexScan db d1 allow ml lim now =
      getRepositoriesForIndexScan db d2 allow ml lim now ∧
    setRepositoriesForRetentionScanWithTime db d1 lim now =
      setRepositoriesForRetentionScanWithTime db d2 lim now ∧
    durationToSeconds d1 = Int.tdiv d1 nsPerSecond ∧
    (∀ t : Time, scanDue now (durationToSeconds d1) (some t) =
      decide (now - t > durationToSeconds d1 * nsPerSecond)) := by
  refine ⟨?_, ?_, rfl, fun t => rfl⟩
  · unfold getRepositoriesForIndexScan
    rw [h]
  · unfold setRepositoriesForRetentionScanWithTime
    rw [h]

/-- C10 witness: 1.5 s and 1.999999999 s share the whole-second bucket 1 s and
produce identical scan results. -/
theorem processDelay_truncation_witness :
    durationToSeconds 1500000000 = durationToSeconds 1999999999 ∧
    getRepositoriesForIndexScan scanSampleDB 1500000000 false none 10
        10000000000 =
      getRepositoriesForIndexScan scanSampleDB 1999999999 false none 10
        10000000000 :=
  ⟨by decide,
    (processDelay_truncation scanSampleDB false none 10 10000000000 1500000000
      1999999999 (by decide)).1⟩

end UploadsStore
